import Mathlib

/-!
Shallow embedding of `src/bot.py` (Vinted scan bot).

Modelling conventions:
- Python floats are modelled as exact rationals (`ℚ`); the prices and
  thresholds the program manipulates are small decimal literals, for which
  rational arithmetic coincides with the intended real-number semantics.
- Python strings are modelled as `List Char` (ASCII-oriented: `\d` and
  `str.isdigit` are modelled by `Char.isDigit`).
- Heterogeneous JSON scalar values are modelled by the inductive `PyVal`.
- External I/O (HTTP requests, file reads/writes) is modelled by passing the
  outcome of the underlying operation as an explicit argument of an
  `Except`/sum type; a raised exception corresponds to the error constructor.
- `datetime` values are modelled by their POSIX epoch in seconds (`ℚ`);
  `datetime.fromtimestamp n` is modelled as the rational `n`.
-/

namespace VintedBot

/-- Heterogeneous Python scalar value, as found in the bot's JSON inputs. -/
inductive PyVal where
  | none
  | int (n : ℤ)
  | float (q : ℚ)
  | str (s : List Char)
deriving DecidableEq

/-- Python truthiness for `PyVal` (`None`, `0`, `0.0`, `""` are falsy). -/
def pyTruthy : PyVal → Bool
  | PyVal.none => false
  | PyVal.int n => decide (n ≠ 0)
  | PyVal.float q => decide (q ≠ 0)
  | PyVal.str s => !s.isEmpty

/-- Numeric value of a list of decimal digit characters (base 10). -/
def digitsVal (l : List Char) : ℕ :=
  l.foldl (fun a c => a * 10 + (c.toNat - 48)) 0

/-- Python `str.strip()`: remove leading and trailing whitespace. -/
def pyStrip (s : List Char) : List Char :=
  ((s.dropWhile Char.isWhitespace).reverse.dropWhile Char.isWhitespace).reverse

/-- `bot.py` lines 105-107: strip, decimal comma to dot, keep only digits,
`.` and `-`. -/
def cleanNumeric (s : List Char) : List Char :=
  ((pyStrip s).map (fun c => if c = ',' then '.' else c)).filter
    (fun c => c.isDigit || c == '.' || c == '-')

/-- Python `float(s)` on an unsigned string made of digits and dots:
accepts `D+`, `D+.D*` and `.D+`, rejects everything else. Returns the
integer part, the fractional digits' value and the fractional digit
count. -/
def parseUnsignedParts (s : List Char) : Option (ℕ × ℕ × ℕ) :=
  let ip := s.takeWhile Char.isDigit
  let rest := s.dropWhile Char.isDigit
  match rest with
  | [] => if ip = [] then Option.none else Option.some (digitsVal ip, 0, 0)
  | c :: frac =>
    if c = '.' ∧ frac.all Char.isDigit ∧ ¬(ip = [] ∧ frac = []) then
      Option.some (digitsVal ip, digitsVal frac, frac.length)
    else Option.none

/-- Sign and magnitude parts of a parsed float literal. -/
def pyFloatParts (s : List Char) : Option (Bool × ℕ × ℕ × ℕ) :=
  match s with
  | '-' :: rest => (parseUnsignedParts rest).map (fun p => (true, p))
  | s => (parseUnsignedParts s).map (fun p => (false, p))

/-- The rational value of parsed sign/magnitude parts. -/
def partsToRat (neg : Bool) (p : ℕ × ℕ × ℕ) : ℚ :=
  let v : ℚ := (p.1 : ℚ) + (p.2.1 : ℚ) / (10 : ℚ) ^ p.2.2
  if neg then -v else v

/-- Python `float(s)` for strings over the alphabet `[0-9.-]` (the only
strings `parse_float` ever passes to `float`): an optional leading minus
sign followed by an unsigned decimal literal. `none` models a raised
`ValueError`. -/
def pyFloatOfString (s : List Char) : Option ℚ :=
  (pyFloatParts s).map (fun bp => partsToRat bp.1 bp.2)

/-- `bot.py` lines 100-111, `parse_float`. -/
def parse_float : PyVal → ℚ
  | PyVal.none => 0
  | PyVal.int n => (n : ℚ)
  | PyVal.float q => q
  | PyVal.str s => (pyFloatOfString (cleanNumeric s)).getD 0

/-- The non-breaking space character replaced in
`extract_quantity_from_text` (`bot.py` line 117). -/
def nbspChar : Char := Char.ofNat 160

/-- `text.replace(nbsp, " ")`. -/
def nbspReplace (s : List Char) : List Char :=
  s.map (fun c => if c = nbspChar then ' ' else c)

/-- Greedily take up to `k` leading digit characters. -/
def leadDigits : ℕ → List Char → List Char
  | 0, _ => []
  | _ + 1, [] => []
  | k + 1, c :: cs => if c.isDigit then c :: leadDigits k cs else []

/-- `num_re.search` for the pattern of 1 to 5 digits (`bot.py` line 98):
the leftmost maximal-up-to-5 run of digits, if any. -/
def searchNum : List Char → Option (List Char)
  | [] => Option.none
  | c :: cs => if c.isDigit then Option.some (leadDigits 5 (c :: cs)) else searchNum cs

/-- `bot.py` lines 113-125, `extract_quantity_from_text`. -/
def extract_quantity_from_text (text : List Char) : Option ℤ :=
  if text = [] then Option.none
  else
    match searchNum (nbspReplace text) with
    | Option.none => Option.none
    | Option.some g =>
      if 1 ≤ digitsVal g ∧ digitsVal g ≤ 5000 then Option.some ((digitsVal g : ℤ))
      else Option.none

/-- Python `int(s)` on a string: optional sign then a nonempty digit run
(whitespace stripped); `none` models a raised `ValueError`. -/
def pyIntOfString (s : List Char) : Option ℤ :=
  match pyStrip s with
  | '-' :: ds =>
    if ds ≠ [] ∧ ds.all Char.isDigit then Option.some (-(digitsVal ds : ℤ)) else Option.none
  | '+' :: ds =>
    if ds ≠ [] ∧ ds.all Char.isDigit then Option.some ((digitsVal ds : ℤ)) else Option.none
  | ds =>
    if ds ≠ [] ∧ ds.all Char.isDigit then Option.some ((digitsVal ds : ℤ)) else Option.none

/-- Python `int(v)` on a scalar value: ints unchanged, floats truncated
toward zero, strings parsed strictly, `None` raising (`none`). -/
def pyInt : PyVal → Option ℤ
  | PyVal.none => Option.none
  | PyVal.int n => Option.some n
  | PyVal.float q => Option.some (q.num.tdiv (q.den : ℤ))
  | PyVal.str s => pyIntOfString s

/-- One entry of the `SEARCHES` configuration (`bot.py` lines 30-63). -/
structure Search where
  name : List Char
  query : List Char
  max_price : Option ℚ
  max_unit_price : Option ℚ
  min_quantity : Option ℤ
deriving DecidableEq

/-- The normalized listing record produced by `item_info`
(`bot.py` lines 179-185); `created_dt` is an epoch instant in seconds. -/
structure Info where
  id : Option ℤ
  title : List Char
  price : ℚ
  url : List Char
  created_dt : Option ℚ
deriving DecidableEq

/-- The raw `price` field of an API item: either a scalar (possibly absent,
i.e. `PyVal.none`) or a dict whose `amount` entry is given
(`PyVal.none` when the key is missing). -/
inductive RawPrice where
  | scalar (v : PyVal)
  | dict (amount : PyVal)
deriving DecidableEq

/-- A raw API item, holding exactly the fields `item_info` reads.
`Option.none` on a field models a missing key (`item.get` returns `None`). -/
structure RawItem where
  id : Option ℤ
  title : Option (List Char)
  price : RawPrice
  url : Option (List Char)
  path : Option (List Char)
  created_at_ts : Option PyVal
deriving DecidableEq

/-- `bot.py` line 66. -/
def BASE : List Char := "https://www.vinted.fr".data

/-- Python `str(item_id)` for the f-string fallback URL. -/
def idRepr : Option ℤ → List Char
  | Option.none => "None".data
  | Option.some n => (toString n).data

/-- Python truthiness of an optional string (`None` and `""` falsy). -/
def strTruthy : Option (List Char) → Bool
  | Option.none => false
  | Option.some s => !s.isEmpty

/-- `bot.py` lines 160-185, `item_info`. `datetime.fromtimestamp(n, utc)`
is modelled as the epoch value `n` itself. -/
def item_info (item : RawItem) : Info :=
  let title := (item.title).getD []
  let price :=
    match item.price with
    | RawPrice.dict a => parse_float a
    | RawPrice.scalar v => parse_float v
  let url_path :=
    if strTruthy item.url then (item.url).getD []
    else if strTruthy item.path then (item.path).getD []
    else "/items/".data ++ idRepr item.id
  let created_ts := (item.created_at_ts).getD PyVal.none
  let created_dt : Option ℚ :=
    if pyTruthy created_ts then
      match pyInt created_ts with
      | Option.some n => Option.some ((n : ℚ))
      | Option.none => Option.none
    else Option.none
  { id := item.id, title := title, price := price,
    url := BASE ++ url_path, created_dt := created_dt }

/-- `bot.py` lines 187-192, `is_recent`; `maxAgeMin` is `MAX_ITEM_AGE_MIN`
and `now` the current epoch instant in seconds. -/
def is_recent (maxAgeMin now : ℚ) : Option ℚ → Bool
  | Option.none => true
  | Option.some t => decide ((now - t) / 60 ≤ maxAgeMin)

/-- Python truthiness of an optional integer (`None` and `0` falsy). -/
def intTruthy : Option ℤ → Bool
  | Option.none => false
  | Option.some n => decide (n ≠ 0)

/-- `bot.py` lines 194-222, `evaluate_item`. Returns
(matched, detected quantity, computed unit price). -/
def evaluate_item (s : Search) (info : Info) : Bool × Option ℤ × Option ℚ :=
  let qty := extract_quantity_from_text info.title
  if intTruthy s.min_quantity = true ∧
      (intTruthy qty = false ∨ qty.getD 0 < (s.min_quantity).getD 0) then
    (false, qty, Option.none)
  else if (s.max_price).isSome = true ∧ (s.max_price).getD 0 < info.price then
    (false, qty, Option.none)
  else if (s.max_unit_price).isSome = true then
    if intTruthy qty = false ∨ qty.getD 0 ≤ 0 then
      (false, qty, Option.none)
    else
      let up := info.price / ((qty.getD 0 : ℤ) : ℚ)
      if (s.max_unit_price).getD 0 < up then (false, qty, Option.some up)
      else (true, qty, Option.some up)
  else (true, qty, Option.none)

/-- Outcome of an HTTP request whose successfully parsed JSON body has
type `α`: transport-level failure, or a response with a status code and a
body whose JSON decoding may itself fail. -/
inductive HttpOutcome (α : Type) where
  | transportError
  | response (status : ℕ) (body : Except Unit α)

/-- `bot.py` lines 140-158, `search_vinted`. The body decodes to the
optional `items` field (`none` when absent or `null`). -/
def search_vinted (o : HttpOutcome (Option (List RawItem))) : List RawItem :=
  match o with
  | HttpOutcome.transportError => []
  | HttpOutcome.response status body =>
    if status ≠ 200 then []
    else
      match body with
      | Except.error _ => []
      | Except.ok items => items.getD []

/-- How a call to `send_telegram` concluded; every constructor corresponds
to a logged (or silent) return, never to a propagated exception. -/
inductive SendResult where
  | notConfigured
  | sent
  | httpError
  | transportError
deriving DecidableEq

/-- `bot.py` lines 127-138, `send_telegram`, abstracted over the outcome of
the POST request. -/
def send_telegram (token chatId : List Char) (o : HttpOutcome Unit) : SendResult :=
  if token = [] ∨ chatId = [] then SendResult.notConfigured
  else
    match o with
    | HttpOutcome.transportError => SendResult.transportError
    | HttpOutcome.response status _ =>
      if 300 ≤ status then SendResult.httpError else SendResult.sent

/-- `bot.py` lines 81-86, `load_seen`, abstracted over the outcome of
reading and JSON-decoding the seen file. -/
def load_seen (o : Except Unit (List ℤ)) : Finset ℤ :=
  match o with
  | Except.error _ => ∅
  | Except.ok l => l.toFinset

/-- How a call to `save_seen` concluded. -/
inductive SaveResult where
  | ok
  | warned
deriving DecidableEq

/-- `bot.py` lines 88-93, `save_seen`, abstracted over the outcome of the
file write. -/
def save_seen (o : Except Unit Unit) : SaveResult :=
  match o with
  | Except.error _ => SaveResult.warned
  | Except.ok _ => SaveResult.ok

/-- The mutable state of one scan cycle: the seen-set, the per-cycle sent
counter, and (for specification purposes) the ids passed to `evaluate_item`
and the ids for which a notification was sent, in order. -/
structure ScanState where
  seen : Finset ℤ
  sent : ℕ
  evaluated : List ℤ
  notified : List ℤ

/-- The body of the inner `for it in items` loop of `scan_once`
(`bot.py` lines 235-268), for one raw item. -/
def processItem (maxAge now : ℚ) (q : Search) (st : ScanState) (it : RawItem) :
    ScanState :=
  let info := item_info it
  if intTruthy info.id = false then st
  else
    let i := (info.id).getD 0
    if i ∈ st.seen then st
    else if is_recent maxAge now info.created_dt = false then
      { st with seen := insert i st.seen }
    else
      let r := evaluate_item q info
      if r.1 then
        { seen := insert i st.seen, sent := st.sent + 1,
          evaluated := st.evaluated ++ [i], notified := st.notified ++ [i] }
      else
        { st with seen := insert i st.seen, evaluated := st.evaluated ++ [i] }

/-- One query of the outer `for search in SEARCHES` loop of `scan_once`,
paired with the item list its `search_vinted` call returned. -/
def processBatch (maxAge now : ℚ) (st : ScanState) (b : Search × List RawItem) :
    ScanState :=
  b.2.foldl (processItem maxAge now b.1) st

/-- `bot.py` lines 224-272, `scan_once`: one full scan cycle starting from
seen-set `seen0`, where `batches` pairs each configured search with the
items fetched for it. The second component records whether the cycle
persisted the seen-set (`if sent_count: save_seen(SEEN)`). -/
def scan_once (maxAge now : ℚ) (batches : List (Search × List RawItem))
    (seen0 : Finset ℤ) : ScanState × Bool :=
  let st := batches.foldl (processBatch maxAge now) (ScanState.mk seen0 0 [] [])
  (st, decide (st.sent ≠ 0))

/-- The inputs of one scan cycle: the instant at which it runs and the
fetched batches. -/
structure CycleInput where
  now : ℚ
  batches : List (Search × List RawItem)

/-- A run of successive scan cycles (the `while True` loop of `main`),
threading the seen-set through and returning it together with the
concatenated evaluation and notification traces. -/
def runCycles (maxAge : ℚ) : List CycleInput → Finset ℤ → Finset ℤ × List ℤ × List ℤ
  | [], seen => (seen, [], [])
  | c :: cs, seen =>
    let st := (scan_once maxAge c.now c.batches seen).1
    let r := runCycles maxAge cs st.seen
    (r.1, st.evaluated ++ r.2.1, st.notified ++ r.2.2)

/-! ## Helper lemmas -/

theorem intTruthy_true_iff (o : Option ℤ) :
    intTruthy o = true ↔ ∃ n, o = Option.some n ∧ n ≠ 0 := by
  cases o <;> simp [intTruthy]

/-! ## Claim theorems -/

/-- C7: `parse_float` is total on every supported input: `None` maps to 0,
numeric input to itself, a string is stripped, its decimal comma changed to
a dot and all characters other than digits, `.`, `-` removed, then parsed,
with unparsable or empty input mapping to 0 (floats modelled as exact
rationals, so every returned value is finite by construction). -/
theorem parse_float_total_spec :
    parse_float PyVal.none = 0 ∧
    (∀ n : ℤ, parse_float (PyVal.int n) = (n : ℚ)) ∧
    (∀ q : ℚ, parse_float (PyVal.float q) = q) ∧
    (∀ s : List Char,
      parse_float (PyVal.str s) = (pyFloatOfString (cleanNumeric s)).getD 0) ∧
    parse_float (PyVal.str "3,50".data) = 7 / 2 ∧
    parse_float (PyVal.str " 12.00 ".data) = 12 ∧
    parse_float (PyVal.str "€12.50".data) = 25 / 2 ∧
    parse_float (PyVal.str "-4,5".data) = -9 / 2 ∧
    parse_float (PyVal.str "abc".data) = 0 ∧
    parse_float (PyVal.str []) = 0 := by
  refine ⟨rfl, fun n => rfl, fun q => rfl, fun s => rfl, ?_, ?_, ?_, ?_, ?_, rfl⟩
  · rw [show parse_float (PyVal.str "3,50".data) =
        ((pyFloatParts (cleanNumeric "3,50".data)).map (fun bp => partsToRat bp.1 bp.2)).getD 0
        from rfl,
      show pyFloatParts (cleanNumeric "3,50".data) = Option.some (false, 3, 50, 2) by decide]
    norm_num [partsToRat]
  · rw [show parse_float (PyVal.str " 12.00 ".data) =
        ((pyFloatParts (cleanNumeric " 12.00 ".data)).map (fun bp => partsToRat bp.1 bp.2)).getD 0
        from rfl,
      show pyFloatParts (cleanNumeric " 12.00 ".data) = Option.some (false, 12, 0, 2) by decide]
    norm_num [partsToRat]
  · rw [show parse_float (PyVal.str "€12.50".data) =
        ((pyFloatParts (cleanNumeric "€12.50".data)).map (fun bp => partsToRat bp.1 bp.2)).getD 0
        from rfl,
      show pyFloatParts (cleanNumeric "€12.50".data) = Option.some (false, 12, 50, 2) by decide]
    norm_num [partsToRat]
  · rw [show parse_float (PyVal.str "-4,5".data) =
        ((pyFloatParts (cleanNumeric "-4,5".data)).map (fun bp => partsToRat bp.1 bp.2)).getD 0
        from rfl,
      show pyFloatParts (cleanNumeric "-4,5".data) = Option.some (true, 4, 5, 1) by decide]
    norm_num [partsToRat]
  · rw [show parse_float (PyVal.str "abc".data) =
        ((pyFloatParts (cleanNumeric "abc".data)).map (fun bp => partsToRat bp.1 bp.2)).getD 0
        from rfl,
      show pyFloatParts (cleanNumeric "abc".data) = Option.none by decide]
    rfl

/-- C9: no failure of an I/O-performing operation escapes its wrapper:
`search_vinted` returns `[]` on a non-200 status, a JSON decoding failure
or a transport failure; `send_telegram` degrades to a logged local result
on missing credentials, an HTTP error status or a transport failure;
`load_seen` returns the empty set on any read failure; `save_seen` logs a
warning on any write failure. -/
theorem io_failures_contained :
    search_vinted HttpOutcome.transportError = [] ∧
    (∀ (st : ℕ) (b : Except Unit (Option (List RawItem))), st ≠ 200 →
      search_vinted (HttpOutcome.response st b) = []) ∧
    (∀ e, search_vinted (HttpOutcome.response 200 (Except.error e)) = []) ∧
    (∀ (t c : List Char) (o : HttpOutcome Unit), t = [] ∨ c = [] →
      send_telegram t c o = SendResult.notConfigured) ∧
    (∀ t c : List Char, t ≠ [] → c ≠ [] →
      send_telegram t c HttpOutcome.transportError = SendResult.transportError) ∧
    (∀ (t c : List Char) (st : ℕ) (b : Except Unit Unit), t ≠ [] → c ≠ [] → 300 ≤ st →
      send_telegram t c (HttpOutcome.response st b) = SendResult.httpError) ∧
    (∀ e, load_seen (Except.error e) = ∅) ∧
    (∀ e, save_seen (Except.error e) = SaveResult.warned) := by
  refine ⟨rfl, ?_, fun e => rfl, ?_, ?_, ?_, fun e => rfl, fun e => rfl⟩
  · intro st b h
    simp [search_vinted, h]
  · intro t c o h
    simp [send_telegram, h]
  · intro t c ht hc
    simp [send_telegram, ht, hc]
  · intro t c st b ht hc hst
    simp [send_telegram, ht, hc, hst]

/-- C9 witness at concrete failing inputs. -/
theorem io_failures_contained_witness :
    search_vinted (HttpOutcome.response 404 (Except.ok (Option.some []))) = [] ∧
    send_telegram [] "1".data HttpOutcome.transportError = SendResult.notConfigured ∧
    send_telegram "t".data "1".data (HttpOutcome.response 500 (Except.ok ())) =
      SendResult.httpError :=
  ⟨io_failures_contained.2.1 404 (Except.ok (Option.some [])) (by decide),
   io_failures_contained.2.2.2.1 [] "1".data HttpOutcome.transportError (Or.inl rfl),
   io_failures_contained.2.2.2.2.2.1 "t".data "1".data 500 (Except.ok ())
     (by decide) (by decide) (by decide)⟩

/-- C10: `item_info` totally normalizes any raw item: a dict-valued price
is parsed from its `amount` entry and a scalar price from the scalar
itself (absent price defaulting to 0), a missing or unparsable
`created_at_ts` yields an absent creation time, and a missing `url` and
`path` yield the fallback url `BASE ++ "/items/" ++ str(id)`. -/
theorem item_info_total_spec :
    ∀ it : RawItem,
      (∀ a, it.price = RawPrice.dict a → (item_info it).price = parse_float a) ∧
      (∀ v, it.price = RawPrice.scalar v → (item_info it).price = parse_float v) ∧
      (it.price = RawPrice.scalar PyVal.none → (item_info it).price = 0) ∧
      (it.created_at_ts = Option.none → (item_info it).created_dt = Option.none) ∧
      (∀ v, it.created_at_ts = Option.some v → pyInt v = Option.none →
        (item_info it).created_dt = Option.none) ∧
      (it.url = Option.none → it.path = Option.none →
        (item_info it).url = BASE ++ ("/items/".data ++ idRepr it.id)) := by
  intro it
  refine ⟨?_, ?_, ?_, ?_, ?_, ?_⟩
  · intro a h
    simp [item_info, h]
  · intro v h
    simp [item_info, h]
  · intro h
    simp [item_info, h, parse_float]
  · intro h
    simp [item_info, h, pyTruthy]
  · intro v h hv
    simp only [item_info, h, Option.getD_some]
    split
    · rw [hv]
    · rfl
  · intro hu hp
    simp [item_info, hu, hp, strTruthy]

/-- C10 witness: a raw item with every field missing still normalizes. -/
theorem item_info_total_spec_witness :
    (item_info (RawItem.mk (Option.some 7) Option.none (RawPrice.scalar PyVal.none)
        Option.none Option.none Option.none)).price = 0 ∧
    (item_info (RawItem.mk (Option.some 7) Option.none (RawPrice.scalar PyVal.none)
        Option.none Option.none Option.none)).created_dt = Option.none ∧
    (item_info (RawItem.mk (Option.some 7) Option.none (RawPrice.scalar PyVal.none)
        Option.none Option.none Option.none)).url =
      BASE ++ ("/items/".data ++ idRepr (Option.some 7)) :=
  ⟨(item_info_total_spec _).2.2.1 rfl,
   (item_info_total_spec _).2.2.2.1 rfl,
   (item_info_total_spec _).2.2.2.2.2 rfl rfl⟩

/-- C3 as stated is false on the code: a query whose `min_quantity` field
is set to `0` is falsy in Python, so `evaluate_item` skips the
minimum-quantity rule entirely and accepts a listing with no extracted
quantity. -/
theorem evaluate_min_quantity_cex :
    ¬ (∀ (s : Search) (info : Info) (m : ℤ), s.min_quantity = Option.some m →
        (evaluate_item s info).1 = true →
        ∃ q, extract_quantity_from_text info.title = Option.some q ∧ m ≤ q) := by
  intro h
  rcases h ⟨"n".data, "q".data, Option.none, Option.none, Option.some 0⟩
      ⟨Option.some 1, [], 0, [], Option.none⟩ 0 rfl (by decide) with ⟨q, hq, _⟩
  rw [show extract_quantity_from_text ([] : List Char) = Option.none from rfl] at hq
  exact Option.noConfusion hq

/-- C3 (amended): for every query whose `min_quantity` field is set to a
nonzero (Python-truthy) value, `evaluate_item` rejects the listing unless
a quantity was extracted from its title and that quantity is at least
`min_quantity`. -/
theorem evaluate_min_quantity_enforced :
    ∀ (s : Search) (info : Info) (m : ℤ), s.min_quantity = Option.some m → m ≠ 0 →
      (evaluate_item s info).1 = true →
      ∃ q, extract_quantity_from_text info.title = Option.some q ∧ m ≤ q := by
  intro s info m hm hm0 hok
  by_cases hC : intTruthy s.min_quantity = true ∧
      (intTruthy (extract_quantity_from_text info.title) = false ∨
        (extract_quantity_from_text info.title).getD 0 < (s.min_quantity).getD 0)
  · exfalso
    simp only [evaluate_item, if_pos hC] at hok
    exact Bool.false_ne_true hok
  · have hmt : intTruthy s.min_quantity = true := by
      rw [hm]
      simp [intTruthy, hm0]
    rcases not_and_or.mp hC with h | h
    · exact absurd hmt h
    · rcases not_or.mp h with ⟨h1, h2⟩
      have h1' : intTruthy (extract_quantity_from_text info.title) = true :=
        eq_true_of_ne_false h1
      rcases (intTruthy_true_iff _).mp h1' with ⟨q, hq, _⟩
      refine ⟨q, hq, ?_⟩
      rw [hq, hm] at h2
      simpa using Int.not_lt.mp h2

/-- C3 witness: a query with `min_quantity = 80` against a title whose
extracted quantity is 100. -/
theorem evaluate_min_quantity_enforced_witness :
    ∃ q, extract_quantity_from_text "lot 100 cartes".data = Option.some q ∧ 80 ≤ q :=
  evaluate_min_quantity_enforced
    ⟨"n".data, "q".data, Option.none, Option.none, Option.some 80⟩
    ⟨Option.some 1, "lot 100 cartes".data, 10, [], Option.none⟩ 80 rfl
    (by decide) (by decide)

/-- Replacing the non-breaking space by a space never changes digit-ness. -/
theorem replChar_isDigit (c : Char) :
    (if c = nbspChar then ' ' else c).isDigit = c.isDigit := by
  by_cases h : c = nbspChar
  · rw [if_pos h, h]
    decide
  · rw [if_neg h]

/-- The non-breaking-space replacement does not change the leading digit
run taken by the regex. -/
theorem leadDigits_nbspReplace (s : List Char) :
    ∀ k, leadDigits k (nbspReplace s) = leadDigits k s := by
  induction s with
  | nil => intro k; cases k <;> rfl
  | cons c cs ih =>
    intro k
    cases k with
    | zero => rfl
    | succ k =>
      show leadDigits (k + 1) ((if c = nbspChar then ' ' else c) :: nbspReplace cs) =
        leadDigits (k + 1) (c :: cs)
      simp only [leadDigits, replChar_isDigit]
      cases hd : c.isDigit with
      | false => simp
      | true =>
        have hc : (if c = nbspChar then ' ' else c) = c := by
          by_cases h : c = nbspChar
          · exfalso
            rw [h] at hd
            exact absurd hd (by decide)
          · rw [if_neg h]
        simp [hc, ih]

/-- The non-breaking-space replacement performed before the regex search
does not change its result. -/
theorem searchNum_nbspReplace (s : List Char) :
    searchNum (nbspReplace s) = searchNum s := by
  induction s with
  | nil => rfl
  | cons c cs ih =>
    show searchNum ((if c = nbspChar then ' ' else c) :: nbspReplace cs) = searchNum (c :: cs)
    simp only [searchNum, replChar_isDigit]
    cases hd : c.isDigit with
    | false => simp [hd, ih]
    | true =>
      have hc : (if c = nbspChar then ' ' else c) = c := by
        by_cases h : c = nbspChar
        · exfalso
          rw [h] at hd
          exact absurd hd (by decide)
        · rw [if_neg h]
      rw [hc]
      simp [hd, leadDigits, leadDigits_nbspReplace cs]

/-- A text without digit characters has no regex match. -/
theorem searchNum_eq_none (s : List Char) (h : ∀ c ∈ s, c.isDigit = false) :
    searchNum s = Option.none := by
  induction s with
  | nil => rfl
  | cons c cs ih =>
    have hc : c.isDigit = false := h c (List.mem_cons_self c cs)
    simp [searchNum, hc, ih (fun x hx => h x (List.mem_cons_of_mem c hx))]

/-- C8: `extract_quantity_from_text` returns a value exactly when the text
is nonempty and the first run of (up to five) digits found by the regex
parses to an integer in `[1, 5000]`, in which case it returns that
integer; empty text, text with no digit, or an out-of-range first run
yield absence, never zero. -/
theorem extract_quantity_spec :
    extract_quantity_from_text [] = Option.none ∧
    (∀ s : List Char, (∀ c ∈ s, c.isDigit = false) →
      extract_quantity_from_text s = Option.none) ∧
    (∀ (s : List Char) (n : ℤ), extract_quantity_from_text s = Option.some n →
      1 ≤ n ∧ n ≤ 5000) ∧
    (∀ (s : List Char) (n : ℤ), extract_quantity_from_text s = Option.some n ↔
      s ≠ [] ∧ ∃ g, searchNum s = Option.some g ∧ (digitsVal g : ℤ) = n ∧
        1 ≤ digitsVal g ∧ digitsVal g ≤ 5000) := by
  have key : ∀ (s : List Char) (n : ℤ), extract_quantity_from_text s = Option.some n ↔
      s ≠ [] ∧ ∃ g, searchNum s = Option.some g ∧ (digitsVal g : ℤ) = n ∧
        1 ≤ digitsVal g ∧ digitsVal g ≤ 5000 := by
    intro s n
    constructor
    · intro h
      simp only [extract_quantity_from_text] at h
      by_cases hs : s = []
      · rw [if_pos hs] at h
        exact Option.noConfusion h
      · rw [if_neg hs] at h
        cases hg : searchNum (nbspReplace s) with
        | none =>
          rw [hg] at h
          exact Option.noConfusion h
        | some g =>
          rw [hg] at h
          dsimp only at h
          by_cases hr : 1 ≤ digitsVal g ∧ digitsVal g ≤ 5000
          · rw [if_pos hr] at h
            exact ⟨hs, g, by rw [← searchNum_nbspReplace]; exact hg,
              Option.some.inj h, hr.1, hr.2⟩
          · rw [if_neg hr] at h
            exact Option.noConfusion h
    · rintro ⟨hs, g, hg, hn, hr1, hr2⟩
      have hg' : searchNum (nbspReplace s) = Option.some g := by
        rw [searchNum_nbspReplace]
        exact hg
      simp only [extract_quantity_from_text, if_neg hs, hg']
      rw [if_pos ⟨hr1, hr2⟩, hn]
  refine ⟨rfl, ?_, ?_, key⟩
  · intro s hnd
    by_cases hs : s = []
    · rw [hs]
      rfl
    · have hsn : searchNum (nbspReplace s) = Option.none := by
        rw [searchNum_nbspReplace]
        exact searchNum_eq_none s hnd
      simp only [extract_quantity_from_text, if_neg hs, hsn]
  · intro s n h
    obtain ⟨-, g, -, hn, hr1, hr2⟩ := (key s n).mp h
    subst hn
    exact ⟨by exact_mod_cast hr1, by exact_mod_cast hr2⟩

/-- C8 witness: a digitless text maps to absence and a digit run in range
is returned with its bounds. -/
theorem extract_quantity_spec_witness :
    extract_quantity_from_text "abc".data = Option.none ∧
    (1 ≤ (100 : ℤ) ∧ (100 : ℤ) ≤ 5000) :=
  ⟨extract_quantity_spec.2.1 "abc".data (by decide),
   extract_quantity_spec.2.2.1 "lot 100 cartes".data 100 (by decide)⟩

/-- C1: `evaluate_item` applies the rules in the order minimum quantity,
total-price ceiling, unit-price ceiling, short-circuiting on the first
failing rule; a query with `min_quantity = 80` rejects a listing whose
title yields quantity 50; a query with `max_unit_price = 0.06` matches a
listing priced 3.00 with extracted quantity 60, with unit price 0.05; a
query with `max_price = 30` rejects a listing priced 35 regardless of its
title. -/
theorem evaluate_rule_order :
    (∀ (s : Search) (info : Info),
      intTruthy s.min_quantity = true →
      (intTruthy (extract_quantity_from_text info.title) = false ∨
        (extract_quantity_from_text info.title).getD 0 < (s.min_quantity).getD 0) →
      evaluate_item s info = (false, extract_quantity_from_text info.title, Option.none)) ∧
    (∀ (s : Search) (info : Info),
      ¬(intTruthy s.min_quantity = true ∧
        (intTruthy (extract_quantity_from_text info.title) = false ∨
          (extract_quantity_from_text info.title).getD 0 < (s.min_quantity).getD 0)) →
      (s.max_price).isSome = true → (s.max_price).getD 0 < info.price →
      evaluate_item s info = (false, extract_quantity_from_text info.title, Option.none)) ∧
    (∀ info : Info, extract_quantity_from_text info.title = Option.some 50 →
      evaluate_item ⟨"n".data, "q".data, Option.none, Option.none, Option.some 80⟩ info =
        (false, Option.some 50, Option.none)) ∧
    evaluate_item ⟨"n".data, "q".data, Option.none, Option.some (6 / 100), Option.none⟩
        ⟨Option.some 1, "lot 60 cartes".data, 3, [], Option.none⟩ =
      (true, Option.some 60, Option.some (5 / 100)) ∧
    (∀ (idv : Option ℤ) (title url : List Char) (cdt : Option ℚ),
      (evaluate_item ⟨"n".data, "q".data, Option.some 30, Option.none, Option.none⟩
        ⟨idv, title, 35, url, cdt⟩).1 = false) := by
  refine ⟨?_, ?_, ?_, ?_, ?_⟩
  · intro s info h1 h2
    simp only [evaluate_item]
    rw [if_pos ⟨h1, h2⟩]
  · intro s info h0 h1 h2
    simp only [evaluate_item]
    rw [if_neg h0, if_pos ⟨h1, h2⟩]
  · intro info h
    have hc : intTruthy (Option.some (80 : ℤ)) = true ∧
        (intTruthy (Option.some (50 : ℤ)) = false ∨
          (Option.some (50 : ℤ)).getD 0 < (Option.some (80 : ℤ)).getD 0) := by decide
    simp only [evaluate_item, h]
    rw [if_pos hc]
  · have hq : extract_quantity_from_text "lot 60 cartes".data = Option.some 60 := by decide
    simp only [evaluate_item, hq]
    norm_num [intTruthy]
  · intro idv title url cdt
    simp only [evaluate_item]
    norm_num [intTruthy]

/-- C1 witness: a concrete listing whose title yields quantity 50 against
the `min_quantity = 80` query. -/
theorem evaluate_rule_order_witness :
    evaluate_item ⟨"n".data, "q".data, Option.none, Option.none, Option.some 80⟩
      ⟨Option.some 1, "lot 50 cartes".data, 10, [], Option.none⟩ =
      (false, Option.some 50, Option.none) :=
  evaluate_rule_order.2.2.1 ⟨Option.some 1, "lot 50 cartes".data, 10, [], Option.none⟩
    (by decide)

/-- C4: `evaluate_item` always returns the extracted quantity, returns a
unit price only when the unit-price rule is configured and a strictly
positive quantity was extracted — in which case the returned unit price is
exactly price divided by that positive quantity (so the division is never
performed with a zero or absent quantity) — rejects without a unit price
whenever the unit-price rule is configured but no strictly positive
quantity exists, and any returned unit price accompanies either a match or
the unit-price-ceiling rejection. -/
theorem evaluate_unit_price_safety :
    ∀ (s : Search) (info : Info),
      (evaluate_item s info).2.1 = extract_quantity_from_text info.title ∧
      (∀ u, (evaluate_item s info).2.2 = Option.some u →
        (s.max_unit_price).isSome = true ∧
        ∃ n, extract_quantity_from_text info.title = Option.some n ∧ 0 < n ∧
          u = info.price / (n : ℚ)) ∧
      ((s.max_unit_price).isSome = true →
        (intTruthy (extract_quantity_from_text info.title) = false ∨
          (extract_quantity_from_text info.title).getD 0 ≤ 0) →
        evaluate_item s info = (false, extract_quantity_from_text info.title, Option.none)) ∧
      (∀ u, (evaluate_item s info).2.2 = Option.some u →
        ((evaluate_item s info).1 = true ∨ (s.max_unit_price).getD 0 < u)) := by
  intro s info
  simp only [evaluate_item]
  split_ifs with h1 h2 h3 h4 h5
  · exact ⟨rfl, fun u hu => by simp at hu, fun _ _ => rfl, fun u hu => by simp at hu⟩
  · exact ⟨rfl, fun u hu => by simp at hu, fun _ _ => rfl, fun u hu => by simp at hu⟩
  · exact ⟨rfl, fun u hu => by simp at hu, fun _ _ => rfl, fun u hu => by simp at hu⟩
  · obtain ⟨hq, hpos⟩ := not_or.mp h4
    obtain ⟨n, hn, -⟩ := (intTruthy_true_iff _).mp (eq_true_of_ne_false hq)
    have hpos' : 0 < n := by
      rw [hn, Option.getD_some] at hpos
      exact not_le.mp hpos
    refine ⟨rfl, ?_, fun _ hbad => absurd hbad h4, ?_⟩
    · intro u hu
      have hu' : info.price / (((extract_quantity_from_text info.title).getD 0 : ℤ) : ℚ) = u := by
        simpa using hu
      refine ⟨h3, n, hn, hpos', ?_⟩
      rw [← hu', hn, Option.getD_some]
    · intro u hu
      have hu' : info.price / (((extract_quantity_from_text info.title).getD 0 : ℤ) : ℚ) = u := by
        simpa using hu
      exact Or.inr (hu' ▸ h5)
  · obtain ⟨hq, hpos⟩ := not_or.mp h4
    obtain ⟨n, hn, -⟩ := (intTruthy_true_iff _).mp (eq_true_of_ne_false hq)
    have hpos' : 0 < n := by
      rw [hn, Option.getD_some] at hpos
      exact not_le.mp hpos
    refine ⟨rfl, ?_, fun _ hbad => absurd hbad h4, fun u _ => Or.inl rfl⟩
    intro u hu
    have hu' : info.price / (((extract_quantity_from_text info.title).getD 0 : ℤ) : ℚ) = u := by
      simpa using hu
    refine ⟨h3, n, hn, hpos', ?_⟩
    rw [← hu', hn, Option.getD_some]
  · exact ⟨rfl, fun u hu => by simp at hu, fun hbad _ => absurd hbad h3,
      fun u hu => by simp at hu⟩

/-- C4 witness: the matching unit-price example, with the unit price
computed from the strictly positive extracted quantity. -/
theorem evaluate_unit_price_safety_witness :
    (Option.some ((6 : ℚ) / 100)).isSome = true ∧
    ∃ n, extract_quantity_from_text "lot 60 cartes".data = Option.some n ∧ 0 < n ∧
      (3 : ℚ) / (((Option.some (60 : ℤ)).getD 0 : ℤ) : ℚ) = (3 : ℚ) / (n : ℚ) := by
  have hq : extract_quantity_from_text "lot 60 cartes".data = Option.some 60 := by decide
  have h : (evaluate_item ⟨"n".data, "q".data, Option.none, Option.some (6 / 100), Option.none⟩
      ⟨Option.some 1, "lot 60 cartes".data, 3, [], Option.none⟩).2.2 =
      Option.some ((3 : ℚ) / (((Option.some (60 : ℤ)).getD 0 : ℤ) : ℚ)) := by
    simp only [evaluate_item, hq]
    norm_num [intTruthy]
  exact (evaluate_unit_price_safety
    ⟨"n".data, "q".data, Option.none, Option.some (6 / 100), Option.none⟩
    ⟨Option.some 1, "lot 60 cartes".data, 3, [], Option.none⟩).2.1 _ h

/-! ## Scan-loop invariants -/

/-- 1 while `i` is not in the seen-set, 0 once it is. -/
def notSeenInd (i : ℤ) (st : ScanState) : ℕ := if i ∈ st.seen then 0 else 1

/-- Everything the scan-loop step preserves about a tracked id `i`:
the seen-set only grows, traces only grow, the evaluation (resp.
notification) count of `i` plus its not-yet-seen indicator never
increases, notifications never outnumber evaluations, and the sent counter
tracks the notification count. -/
def StInv (i : ℤ) (st st' : ScanState) : Prop :=
  st.seen ⊆ st'.seen ∧
  (∃ e, st'.evaluated = st.evaluated ++ e) ∧
  (∃ e, st'.notified = st.notified ++ e) ∧
  st'.evaluated.count i + notSeenInd i st' ≤ st.evaluated.count i + notSeenInd i st ∧
  st'.notified.count i + notSeenInd i st' ≤ st.notified.count i + notSeenInd i st ∧
  (st.notified.count i ≤ st.evaluated.count i →
    st'.notified.count i ≤ st'.evaluated.count i) ∧
  (st.sent = st.notified.length → st'.sent = st'.notified.length)

theorem stInv_refl (i : ℤ) (st : ScanState) : StInv i st st :=
  ⟨Finset.Subset.refl _, ⟨[], by simp⟩, ⟨[], by simp⟩, le_refl _, le_refl _,
    fun h => h, fun h => h⟩

theorem stInv_trans {i : ℤ} {st1 st2 st3 : ScanState}
    (h : StInv i st1 st2) (h' : StInv i st2 st3) : StInv i st1 st3 := by
  obtain ⟨a1, ⟨e1, he1⟩, ⟨m1, hm1⟩, c1, d1, f1, g1⟩ := h
  obtain ⟨a2, ⟨e2, he2⟩, ⟨m2, hm2⟩, c2, d2, f2, g2⟩ := h'
  exact ⟨a1.trans a2, ⟨e1 ++ e2, by rw [he2, he1, List.append_assoc]⟩,
    ⟨m1 ++ m2, by rw [hm2, hm1, List.append_assoc]⟩,
    c2.trans c1, d2.trans d1, fun h => f2 (f1 h), fun h => g2 (g1 h)⟩

theorem notSeenInd_le {i : ℤ} {st st' : ScanState} (h : st.seen ⊆ st'.seen) :
    notSeenInd i st' ≤ notSeenInd i st := by
  unfold notSeenInd
  by_cases hi : i ∈ st.seen
  · simp [hi, h hi]
  · split <;> omega

theorem stInv_processItem (a n : ℚ) (q : Search) (i : ℤ) (st : ScanState) (it : RawItem) :
    StInv i st (processItem a n q st it) := by
  simp only [processItem]
  split_ifs with h0 h1 h2 h3
  · exact stInv_refl i st
  · exact stInv_refl i st
  · refine ⟨Finset.subset_insert _ _, ⟨[], by simp⟩, ⟨[], by simp⟩, ?_, ?_,
      fun h => h, fun h => h⟩
    · exact Nat.add_le_add_left (notSeenInd_le (Finset.subset_insert _ _)) _
    · exact Nat.add_le_add_left (notSeenInd_le (Finset.subset_insert _ _)) _
  · refine ⟨Finset.subset_insert _ _, ⟨_, rfl⟩, ⟨_, rfl⟩, ?_, ?_, ?_, ?_⟩
    · by_cases hii : i = ((item_info it).id).getD 0
      · have h1' : i ∉ st.seen := by
          rw [hii]
          exact h1
        simp [List.count_append, notSeenInd, hii, h1, Finset.mem_insert_self]
      · have hmem : (i ∈ insert (((item_info it).id).getD 0) st.seen) ↔ i ∈ st.seen := by
          simp [Finset.mem_insert, hii]
        simp [List.count_append, notSeenInd, hmem, hii]
    · by_cases hii : i = ((item_info it).id).getD 0
      · have h1' : i ∉ st.seen := by
          rw [hii]
          exact h1
        simp [List.count_append, notSeenInd, hii, h1, Finset.mem_insert_self]
      · have hmem : (i ∈ insert (((item_info it).id).getD 0) st.seen) ↔ i ∈ st.seen := by
          simp [Finset.mem_insert, hii]
        simp [List.count_append, notSeenInd, hmem, hii]
    · intro h
      simp only [List.count_append]
      have hle : List.count i [((item_info it).id).getD 0] ≤
          List.count i [((item_info it).id).getD 0] := le_refl _
      omega
    · intro h
      simp [h]
  · refine ⟨Finset.subset_insert _ _, ⟨_, rfl⟩, ⟨[], by simp⟩, ?_, ?_, ?_, fun h => h⟩
    · by_cases hii : i = ((item_info it).id).getD 0
      · have h1' : i ∉ st.seen := by
          rw [hii]
          exact h1
        simp [List.count_append, notSeenInd, hii, h1, Finset.mem_insert_self]
      · have hmem : (i ∈ insert (((item_info it).id).getD 0) st.seen) ↔ i ∈ st.seen := by
          simp [Finset.mem_insert, hii]
        simp [List.count_append, notSeenInd, hmem, hii]
    · exact Nat.add_le_add_left (notSeenInd_le (Finset.subset_insert _ _)) _
    · intro h
      simp only [List.count_append]
      omega

theorem stInv_foldl {α : Type} (f : ScanState → α → ScanState) (i : ℤ)
    (hf : ∀ st x, StInv i st (f st x)) (l : List α) :
    ∀ st : ScanState, StInv i st (l.foldl f st) := by
  induction l with
  | nil => intro st; exact stInv_refl i st
  | cons x xs ih => intro st; exact stInv_trans (hf st x) (ih (f st x))

theorem stInv_scan_once (a n : ℚ) (bs : List (Search × List RawItem)) (st0 : ScanState)
    (i : ℤ) : StInv i st0 (bs.foldl (processBatch a n) st0) :=
  stInv_foldl (processBatch a n) i
    (fun st b => stInv_foldl (processItem a n b.1) i
      (fun st' x => stInv_processItem a n b.1 i st' x) b.2 st) bs st0

theorem scan_once_facts (a n : ℚ) (bs : List (Search × List RawItem)) (seen0 : Finset ℤ)
    (i : ℤ) :
    seen0 ⊆ (scan_once a n bs seen0).1.seen ∧
    (scan_once a n bs seen0).1.evaluated.count i + notSeenInd i (scan_once a n bs seen0).1 ≤
      (if i ∈ seen0 then 0 else 1) ∧
    (scan_once a n bs seen0).1.notified.count i + notSeenInd i (scan_once a n bs seen0).1 ≤
      (if i ∈ seen0 then 0 else 1) ∧
    (scan_once a n bs seen0).1.notified.count i ≤ (scan_once a n bs seen0).1.evaluated.count i ∧
    (scan_once a n bs seen0).1.sent = (scan_once a n bs seen0).1.notified.length := by
  obtain ⟨h1, -, -, h4, h5, h6, h7⟩ := stInv_scan_once a n bs (ScanState.mk seen0 0 [] []) i
  exact ⟨h1, by simpa [notSeenInd] using h4, by simpa [notSeenInd] using h5,
    h6 le_rfl, h7 rfl⟩

theorem runCycles_facts (a : ℚ) :
    ∀ (cs : List CycleInput) (seen0 : Finset ℤ) (i : ℤ),
      seen0 ⊆ (runCycles a cs seen0).1 ∧
      (runCycles a cs seen0).2.1.count i + (if i ∈ (runCycles a cs seen0).1 then 0 else 1) ≤
        (if i ∈ seen0 then 0 else 1) ∧
      (runCycles a cs seen0).2.2.count i ≤ (runCycles a cs seen0).2.1.count i := by
  intro cs
  induction cs with
  | nil =>
    intro seen0 i
    refine ⟨Finset.Subset.refl _, ?_, le_refl _⟩
    simp [runCycles]
  | cons c cs ih =>
    intro seen0 i
    obtain ⟨h1, h2, h3, h4, -⟩ := scan_once_facts a c.now c.batches seen0 i
    obtain ⟨g1, g2, g3⟩ := ih (scan_once a c.now c.batches seen0).1.seen i
    simp only [notSeenInd] at h2 h3
    simp only [runCycles]
    refine ⟨h1.trans g1, ?_, ?_⟩
    · rw [List.count_append]
      omega
    · rw [List.count_append, List.count_append]
      exact Nat.add_le_add h4 g3

/-- C2: over any run of scan cycles, an id already in the seen-set at the
start is never passed to `evaluate_item` and never notified; every id is
evaluated at most once over the whole run and notified at most as often as
it is evaluated; and from any state whose seen-set already holds `i`, one
further loop iteration never evaluates or notifies `i` again. -/
theorem seen_ids_never_reevaluated (a : ℚ) (cs : List CycleInput) (seen0 : Finset ℤ)
    (i : ℤ) :
    (i ∈ seen0 → i ∉ (runCycles a cs seen0).2.1 ∧ i ∉ (runCycles a cs seen0).2.2) ∧
    (runCycles a cs seen0).2.1.count i ≤ 1 ∧
    (runCycles a cs seen0).2.2.count i ≤ (runCycles a cs seen0).2.1.count i ∧
    (∀ (n : ℚ) (q : Search) (st : ScanState) (it : RawItem), i ∈ st.seen →
      i ∈ (processItem a n q st it).seen ∧
      (processItem a n q st it).evaluated.count i = st.evaluated.count i ∧
      (processItem a n q st it).notified.count i = st.notified.count i) := by
  obtain ⟨h1, h2, h3⟩ := runCycles_facts a cs seen0 i
  refine ⟨?_, ?_, h3, ?_⟩
  · intro hi
    rw [if_pos hi] at h2
    have hev : (runCycles a cs seen0).2.1.count i = 0 := by omega
    have hnt : (runCycles a cs seen0).2.2.count i = 0 := by omega
    exact ⟨List.count_eq_zero.mp hev, List.count_eq_zero.mp hnt⟩
  · by_cases hi : i ∈ seen0
    · rw [if_pos hi] at h2
      omega
    · rw [if_neg hi] at h2
      omega
  · intro n q st it hseen
    obtain ⟨s1, ⟨e, he⟩, ⟨m, hm⟩, c4, c5, -, -⟩ := stInv_processItem a n q i st it
    have h0 : notSeenInd i st = 0 := by simp [notSeenInd, hseen]
    have h0' : notSeenInd i (processItem a n q st it) = 0 := by
      simp [notSeenInd, s1 hseen]
    refine ⟨s1 hseen, ?_, ?_⟩
    · rw [he, List.count_append]
      rw [he, List.count_append, h0, h0'] at c4
      omega
    · rw [hm, List.count_append]
      rw [hm, List.count_append, h0, h0'] at c5
      omega

/-- C2 witness: an id present in the seen-set before the run never shows
up in a run's evaluation or notification trace. -/
theorem seen_ids_never_reevaluated_witness :
    (5 : ℤ) ∉ (runCycles 60 [] ({5} : Finset ℤ)).2.1 ∧
    (5 : ℤ) ∉ (runCycles 60 [] ({5} : Finset ℤ)).2.2 :=
  (seen_ids_never_reevaluated 60 [] {5} 5).1 (Finset.mem_singleton_self 5)

/-- C6: a scan cycle's per-cycle sent counter equals the number of
notifications it sent, and the cycle persists the seen-set exactly when
that counter is nonzero, i.e. exactly when at least one notification was
sent; cycles that only mark rejected or stale ids as seen do not
persist. -/
theorem scan_persists_iff_notification (a n : ℚ) (bs : List (Search × List RawItem))
    (seen0 : Finset ℤ) :
    (scan_once a n bs seen0).1.sent = (scan_once a n bs seen0).1.notified.length ∧
    ((scan_once a n bs seen0).2 = true ↔ (scan_once a n bs seen0).1.notified ≠ []) := by
  obtain ⟨-, -, -, -, h5⟩ := scan_once_facts a n bs seen0 0
  refine ⟨h5, ?_⟩
  have h2 : (scan_once a n bs seen0).2 =
      decide ((scan_once a n bs seen0).1.sent ≠ 0) := rfl
  rw [h2, decide_eq_true_eq, h5]
  constructor
  · intro h hl
    rw [hl] at h
    exact h rfl
  · intro h hl
    exact h (List.length_eq_zero.mp hl)

/-- C6 witness: the persistence flag of a concrete cycle coincides with
its having notified. -/
theorem scan_persists_iff_notification_witness :
    (scan_once 60 0 [] (∅ : Finset ℤ)).2 = true ↔
      (scan_once 60 0 [] (∅ : Finset ℤ)).1.notified ≠ [] :=
  (scan_persists_iff_notification 60 0 [] ∅).2

/-- C5: a listing with no known creation time is treated as recent and
(if new and with a truthy id) proceeds to rule evaluation, while a listing
whose recency check fails is added to the seen-set and skipped with the
rest of the state untouched — it is never evaluated against the rules,
regardless of whether it would match. -/
theorem scan_recency_policy :
    ∀ (a n : ℚ) (q : Search) (st : ScanState) (it : RawItem),
      is_recent a n Option.none = true ∧
      ((item_info it).created_dt = Option.none → intTruthy (item_info it).id = true →
        ((item_info it).id).getD 0 ∉ st.seen →
        (processItem a n q st it).evaluated =
          st.evaluated ++ [((item_info it).id).getD 0]) ∧
      (is_recent a n (item_info it).created_dt = false → intTruthy (item_info it).id = true →
        ((item_info it).id).getD 0 ∉ st.seen →
        (processItem a n q st it) =
          { st with seen := insert (((item_info it).id).getD 0) st.seen }) := by
  intro a n q st it
  refine ⟨rfl, ?_, ?_⟩
  · intro hdt hid hseen
    have hc0 : ¬(intTruthy (item_info it).id = false) := by simp [hid]
    have hc2 : ¬(is_recent a n (item_info it).created_dt = false) := by
      simp [hdt, is_recent]
    simp only [processItem]
    rw [if_neg hc0, if_neg hseen, if_neg hc2]
    by_cases hr : (evaluate_item q (item_info it)).1 = true
    · rw [if_pos hr]
    · rw [if_neg hr]
  · intro hrec hid hseen
    have hc0 : ¬(intTruthy (item_info it).id = false) := by simp [hid]
    simp only [processItem]
    rw [if_neg hc0, if_neg hseen, if_pos hrec]

/-- C5 witness: a concrete fresh listing with no creation time is
evaluated, and a concrete stale listing is only marked seen. -/
theorem scan_recency_policy_witness :
    (processItem 60 0 ⟨"n".data, "q".data, Option.none, Option.none, Option.none⟩
        (ScanState.mk ∅ 0 [] [])
        (RawItem.mk (Option.some 7) (Option.some "lot 100 cartes".data)
          (RawPrice.scalar (PyVal.float (12 / 5))) Option.none Option.none
          Option.none)).evaluated =
      (ScanState.mk ∅ 0 [] []).evaluated ++
        [((item_info (RawItem.mk (Option.some 7) (Option.some "lot 100 cartes".data)
          (RawPrice.scalar (PyVal.float (12 / 5))) Option.none Option.none
          Option.none)).id).getD 0] ∧
    (processItem 60 1000000 ⟨"n".data, "q".data, Option.none, Option.none, Option.none⟩
        (ScanState.mk ∅ 0 [] [])
        (RawItem.mk (Option.some 8) (Option.some "lot 100 cartes".data)
          (RawPrice.scalar (PyVal.float (12 / 5))) Option.none Option.none
          (Option.some (PyVal.int 1)))) =
      { ScanState.mk ∅ 0 [] [] with
          seen := insert (((item_info (RawItem.mk (Option.some 8)
            (Option.some "lot 100 cartes".data) (RawPrice.scalar (PyVal.float (12 / 5)))
            Option.none Option.none (Option.some (PyVal.int 1)))).id).getD 0)
            (ScanState.mk ∅ 0 [] []).seen } := by
  constructor
  · exact (scan_recency_policy 60 0 ⟨"n".data, "q".data, Option.none, Option.none,
      Option.none⟩ (ScanState.mk ∅ 0 [] []) _).2.1 rfl (by decide) (by decide)
  · have hrec : is_recent 60 1000000
        (item_info (RawItem.mk (Option.some 8) (Option.some "lot 100 cartes".data)
          (RawPrice.scalar (PyVal.float (12 / 5))) Option.none Option.none
          (Option.some (PyVal.int 1)))).created_dt = false := by
      have h : (item_info (RawItem.mk (Option.some 8) (Option.some "lot 100 cartes".data)
          (RawPrice.scalar (PyVal.float (12 / 5))) Option.none Option.none
          (Option.some (PyVal.int 1)))).created_dt = Option.some ((1 : ℤ) : ℚ) := rfl
      rw [h]
      simp only [is_recent, decide_eq_false_iff_not]
      norm_num
    exact (scan_recency_policy 60 1000000 ⟨"n".data, "q".data, Option.none, Option.none,
      Option.none⟩ (ScanState.mk ∅ 0 [] []) _).2.2 hrec (by decide) (by decide)

end VintedBot
